import Mathlib

/-!
Verification of the ultrasonic-radar program (`src/main.cpp`) against its
natural-language specification.  The byte stream, protocol framer, message
parser, trail buffer, measurement table and the fade/blip drawing loop are
embedded shallowly; byte streams are `List Char`, C `int` is `Int`, and the
exact color arithmetic (which multiplies by the literal `1.4`) is carried
out in `ℚ`.
-/

namespace Radar

/-- Whitespace predicate of `std::isspace` in the "C" locale, used by
`std::stoi` to skip leading whitespace. -/
def isSpaceChar (c : Char) : Bool :=
  c = ' ' || c = '\t' || c = '\n' || c = '\x0b' || c = '\x0c' || c = '\r'

/-- Decimal-digit predicate (`'0'` through `'9'`), as used by `std::stoi`. -/
def isDigitChar (c : Char) : Bool :=
  '0' ≤ c && c ≤ '9'

/-- Value of a list of decimal digits, most significant first. -/
def digitsToNat (ds : List Char) : Nat :=
  ds.foldl (fun acc c => 10 * acc + (c.toNat - '0'.toNat)) 0

/-- Digit-run stage of `std::stoi`: after the optional sign, a maximal
nonempty run of decimal digits is converted; with no digit at all the C++
call throws `std::invalid_argument`, modelled as `none`. -/
def stoiDigits (sign : Int) (s : List Char) : Option Int :=
  let ds := s.takeWhile isDigitChar
  if ds = [] then none else some (sign * (digitsToNat ds : Int))

/-- Model of `std::stoi` (base 10) on the string `s` in `main.cpp` lines
226 and 229: skip leading whitespace, read an optional sign, then convert
the maximal digit prefix; trailing non-numeric characters are ignored.
`none` models the thrown `std::invalid_argument` when no digits are found.
Overflow of the C `int` range is not modelled (all protocol values are
small). -/
def stoi (s : List Char) : Option Int :=
  match s.dropWhile isSpaceChar with
  | [] => none
  | c :: rest =>
    if c = '-' then stoiDigits (-1) rest
    else if c = '+' then stoiDigits 1 rest
    else stoiDigits 1 (c :: rest)

/-- Frame extraction loop of `main.cpp` lines 218-220: repeatedly find the
first `'|'`, emit everything before it as one message, and drop the
delimiter; what follows the last delimiter is the retained residue. -/
def extractFrames : List Char → List (List Char) × List Char
  | [] => ([], [])
  | c :: cs =>
    if c = '|' then
      ([] :: (extractFrames cs).1, (extractFrames cs).2)
    else
      match extractFrames cs with
      | ([], r) => ([], c :: r)
      | (m :: ms, r) => ((c :: m) :: ms, r)

/-- One `read` iteration of `main.cpp` lines 213-218: append the chunk to
the buffered residue `st` and extract all complete frames. -/
def feed (st chunk : List Char) : List (List Char) × List Char :=
  extractFrames (st ++ chunk)

/-- Feeding a sequence of chunks: each call starts from the residue the
previous call left in `data`. -/
def feedAll (st : List Char) : List (List Char) → List (List Char) × List Char
  | [] => ([], st)
  | c :: cs =>
    let p := feed st c
    let q := feedAll p.2 cs
    (p.1 ++ q.1, q.2)

/-- The `message.find(':')` split of `main.cpp` line 223: locate the first
`':'` and return the text before and after it; `none` when the field
delimiter is absent. -/
def splitAtColon : List Char → Option (List Char × List Char)
  | [] => none
  | c :: cs =>
    if c = ':' then some ([], cs)
    else
      match splitAtColon cs with
      | none => none
      | some (a, b) => some (c :: a, b)

/-- Outcome of handling one delimiter-bounded message in `main.cpp` lines
222-240: `ok` when both fields convert, `formatError` for the `else`
branch (no `':'`, reported on `stderr` and skipped), and `crash` when
`std::stoi` throws its uncaught `std::invalid_argument` (no digits in a
field), which terminates the process. -/
inductive ParseResult where
  | ok (deg dist : Int)
  | formatError
  | crash
deriving DecidableEq

/-- Parse one framed message exactly as `main.cpp` lines 223-229 do. -/
def parseMessage (m : List Char) : ParseResult :=
  match splitAtColon m with
  | none => ParseResult.formatError
  | some (f1, f2) =>
    match stoi f1, stoi f2 with
    | some deg, some dist => ParseResult.ok deg dist
    | _, _ => ParseResult.crash

/-- The record a message contributes to the output stream, if any. -/
def parsedRecord (m : List Char) : Option (Int × Int) :=
  match parseMessage m with
  | ParseResult.ok deg dist => some (deg, dist)
  | _ => none

/-- Ordered records produced by a list of framed messages. -/
def recordsOfMessages (ms : List (List Char)) : List (Int × Int) :=
  ms.filterMap parsedRecord

theorem extractFrames_append (a b : List Char) :
    extractFrames (a ++ b) =
      ((extractFrames a).1 ++ (extractFrames ((extractFrames a).2 ++ b)).1,
        (extractFrames ((extractFrames a).2 ++ b)).2) := by
  induction a with
  | nil => simp [extractFrames]
  | cons c cs ih =>
    by_cases hc : c = '|'
    · subst hc
      simp [extractFrames, ih]
    · rcases hA : extractFrames cs with ⟨ms, r⟩
      rcases ms with _ | ⟨m₀, ms₀⟩
      · rcases hB : extractFrames (r ++ b) with ⟨bs, br⟩
        rcases bs with _ | ⟨bm, bms⟩
        · simp [extractFrames, hc, ih, hA, hB]
        · simp [extractFrames, hc, ih, hA, hB]
      · simp [extractFrames, hc, ih, hA]

theorem extractFrames_no_delim (s : List Char) (h : '|' ∉ s) :
    extractFrames s = ([], s) := by
  induction s with
  | nil => simp [extractFrames]
  | cons c cs ih =>
    simp only [List.mem_cons, not_or] at h
    simp [extractFrames, Ne.symm h.1, ih h.2]

theorem residue_no_delim (s : List Char) : '|' ∉ (extractFrames s).2 := by
  induction s with
  | nil => simp [extractFrames]
  | cons c cs ih =>
    by_cases hc : c = '|'
    · subst hc; simpa [extractFrames] using ih
    · rcases hA : extractFrames cs with ⟨ms, r⟩
      rcases ms with _ | ⟨m₀, ms₀⟩
      · rw [hA] at ih
        simp only [extractFrames, hc, if_false, hA, List.mem_cons, not_or]
        exact ⟨Ne.symm hc, ih⟩
      · rw [hA] at ih
        simpa [extractFrames, hc, hA] using ih

theorem feedAll_eq_feed (chunks : List (List Char)) (st : List Char)
    (h : '|' ∉ st) : feedAll st chunks = feed st chunks.flatten := by
  induction chunks generalizing st with
  | nil =>
    simp [feedAll, feed, extractFrames_no_delim st h]
  | cons c cs ih =>
    have hres : '|' ∉ (extractFrames (st ++ c)).2 := residue_no_delim (st ++ c)
    simp only [feedAll, feed]
    rw [ih _ hres]
    simp only [feed]
    rw [show st ++ (c :: cs).flatten = (st ++ c) ++ cs.flatten by simp]
    rw [extractFrames_append (st ++ c) cs.flatten]

/-- Claim C1: feeding any byte sequence to the framer split into arbitrary
chunks (including one byte at a time) yields exactly the same ordered
message list — hence the same ordered `(angle, distance)` record
sequence — as feeding it in one piece, and the bytes after the last frame
delimiter are retained as the same residue. -/
theorem framer_chunking_invariant (chunks : List (List Char)) :
    feedAll [] chunks = extractFrames chunks.flatten ∧
      recordsOfMessages (feedAll [] chunks).1 =
        recordsOfMessages (extractFrames chunks.flatten).1 ∧
      (feedAll [] chunks).2 = (extractFrames chunks.flatten).2 := by
  have h := feedAll_eq_feed chunks [] (by simp)
  simp only [feed, List.nil_append] at h
  exact ⟨h, by rw [h], by rw [h]⟩

/-- Push of `main.cpp` lines 140-142: `line_deque.push_front(...)`, then
`if (line_deque.size() > 40) line_deque.pop_back()`.  The deque is a list,
front first. -/
def lineDequePush (m : Int × Int) (buf : List (Int × Int)) : List (Int × Int) :=
  if (m :: buf).length > 40 then (m :: buf).dropLast else m :: buf

/-- Conditional insertion into `arduino_measurements` of `main.cpp` lines
235-237: store only when `distanceCM < 50 && distanceCM > 1` and the angle
key is absent (`count(degree) == 0`).  The map is an association list;
`lookup` is `none` exactly when the key is absent. -/
def storeMeasurement (deg dist : Int) (t : List (Int × Int)) : List (Int × Int) :=
  if dist < 50 ∧ dist > 1 ∧ t.lookup deg = none then (deg, dist) :: t else t

/-- Session state of `main`: the trail deque `line_deque`, the map
`arduino_measurements`, and the count of messages reported on `stderr` by
the `else` branch of line 239. -/
structure SysState where
  trail : List (Int × Int)
  table : List (Int × Int)
  errors : Nat
deriving DecidableEq

/-- State at program start: empty deque, empty map, nothing reported. -/
def initState : SysState := ⟨[], [], 0⟩

/-- Effect of one successfully parsed record (`main.cpp` lines 226-237):
`updateRadar` pushes it into the deque unconditionally — no range check on
either field — and the table insertion applies its own guard. -/
def processRecord (st : SysState) (deg dist : Int) : SysState :=
  { st with
    trail := lineDequePush (deg, dist) st.trail
    table := storeMeasurement deg dist st.table }

/-- Result of running the message loop: `ok` when every message was
handled, `crashed` when an uncaught `std::stoi` exception terminated the
process, carrying the state reached so far. -/
inductive RunOutcome where
  | ok (st : SysState)
  | crashed (st : SysState)
deriving DecidableEq

/-- Handling of one framed message in the body of the inner `while` loop
(`main.cpp` lines 222-240). -/
def stepMessage (st : SysState) (m : List Char) : RunOutcome :=
  match parseMessage m with
  | ParseResult.ok deg dist => RunOutcome.ok (processRecord st deg dist)
  | ParseResult.formatError => RunOutcome.ok { st with errors := st.errors + 1 }
  | ParseResult.crash => RunOutcome.crashed st

/-- The inner `while` loop over all framed messages; a crash stops the
stream immediately (the exception propagates out of `main`). -/
def runMessages (st : SysState) : List (List Char) → RunOutcome
  | [] => RunOutcome.ok st
  | m :: ms =>
    match stepMessage st m with
    | RunOutcome.ok st' => runMessages st' ms
    | RunOutcome.crashed st' => RunOutcome.crashed st'

/-- End-to-end processing of a byte sequence from the initial state. -/
def run (input : List Char) : RunOutcome :=
  runMessages initState (extractFrames input).1

/-- Drawing primitives issued by the trail loop of `updateRadar`
(`main.cpp` lines 145-153).  A `line` is `drawLineAtAngle(frame,
circle_center, angle, length, Scalar(0, g, 0), false)`; a `blip` is
`cv::circle(frame, calculate_circle_point(angle, scaledLen), 3,
Scalar(0, 8, r), -1)`.  The faded channels `g` and `r` are kept in `ℚ`
because the source multiplies by the literal `1.4`. -/
inductive DrawCmd where
  | line (angle : Int) (length : Int) (g : ℚ)
  | blip (angle : Int) (scaledLen : Int) (r : ℚ)
deriving DecidableEq

/-- Commands for one trail entry once `color_change` has been incremented
to `cc`: the radial line of length 100 with green `200 - cc`, and, when
`distance < 50 and distance > 2`, the filled circle at
`calculate_circle_point(angle, distance*2)` with fading channel
`255 - cc*1.4`. -/
def entryCmds (cc : ℚ) (a d : Int) : List DrawCmd :=
  DrawCmd.line a 100 (200 - cc) ::
    (if d < 50 ∧ d > 2 then [DrawCmd.blip a (d * 2) (255 - cc * (14 / 10))] else [])

/-- The trail loop with accumulator `color_change = cc`: each iteration
first adds 5, then draws. -/
def fadeCmds (cc : ℚ) : List (Int × Int) → List DrawCmd
  | [] => []
  | (a, d) :: rest => entryCmds (cc + 5) a d ++ fadeCmds (cc + 5) rest

/-- All commands the trail overlay of `updateRadar` issues for a given
deque snapshot (`color_change` starts at 0, line 145). -/
def updateRadarCmds (trail : List (Int × Int)) : List DrawCmd :=
  fadeCmds 0 trail

/-- Canvas width (`main.cpp` line 19). -/
def width : Int := 240

/-- Canvas height (`main.cpp` line 20). -/
def height : Int := 140

/-- Radar origin `circle_center(width/2, height - 20)` (`main.cpp` line 23). -/
def circle_center : Int × Int := (width / 2, height - 20)

/-- Endpoint formula shared by `drawLineAtAngle` (`main.cpp` lines 50-54)
and `calculate_circle_point` (lines 77-79): convert the angle to radians
and move `len` along `(cos, -sin)` — the vertical screen axis grows
downward, so the sine term is subtracted.  The `double` arithmetic of the
source is idealized over `ℝ`; at the angles the claims examine (0 and 90
degrees) the real value is exact. -/
noncomputable def lineEndpoint (sx sy angle len : Int) : ℝ × ℝ :=
  ((sx : ℝ) + Real.cos ((angle : ℝ) * (Real.pi / 180)) * (len : ℝ),
    (sy : ℝ) - Real.sin ((angle : ℝ) * (Real.pi / 180)) * (len : ℝ))

/-- The blip-placement transform `calculate_circle_point(angle, length)`
(`main.cpp` lines 76-81), anchored at `circle_center`. -/
noncomputable def calculate_circle_point (angle len : Int) : ℝ × ℝ :=
  lineEndpoint circle_center.1 circle_center.2 angle len

theorem lineDequePush_length_le (m : Int × Int) (buf : List (Int × Int))
    (h : buf.length ≤ 40) : (lineDequePush m buf).length ≤ 40 := by
  unfold lineDequePush
  split
  · simp only [List.length_dropLast, List.length_cons]
    omega
  · rename_i hle
    simp only [List.length_cons, gt_iff_lt, not_lt] at hle
    simpa using hle

theorem foldl_push_length_le (ms : List (Int × Int)) (buf : List (Int × Int))
    (h : buf.length ≤ 40) :
    (ms.foldl (fun b x => lineDequePush x b) buf).length ≤ 40 := by
  induction ms generalizing buf with
  | nil => simpa using h
  | cons x xs ih => exact ih _ (lineDequePush_length_le x buf h)

/-- Claim C3: starting from any deque of length at most 40 (hence after
any sequence of pushes from the empty deque), a push keeps the length at
most 40 and places the new measurement at the front; below capacity
nothing is removed, and at capacity exactly the back (oldest) entry is
evicted. -/
theorem trail_capacity (ms : List (Int × Int)) (buf : List (Int × Int))
    (m : Int × Int) (h : buf.length ≤ 40) :
    (lineDequePush m buf).length ≤ 40 ∧
      (lineDequePush m buf).head? = some m ∧
      (buf.length < 40 → lineDequePush m buf = m :: buf) ∧
      (buf.length = 40 → lineDequePush m buf = m :: buf.dropLast) ∧
      (ms.foldl (fun b x => lineDequePush x b) []).length ≤ 40 := by
  refine ⟨lineDequePush_length_le m buf h, ?_, ?_, ?_,
    foldl_push_length_le ms [] (by simp)⟩
  · unfold lineDequePush
    split
    · rename_i hgt
      cases buf with
      | nil => simp at hgt
      | cons b bs => rfl
    · rfl
  · intro hlt
    unfold lineDequePush
    split
    · rename_i hgt
      simp only [List.length_cons, gt_iff_lt] at hgt
      omega
    · rfl
  · intro heq
    unfold lineDequePush
    split
    · cases buf with
      | nil => simp at heq
      | cons b bs => rfl
    · rename_i hle
      simp only [List.length_cons, gt_iff_lt, not_lt] at hle
      omega

/-- Witness for `trail_capacity` at a full 40-element deque. -/
theorem trail_capacity_witness :
    (lineDequePush ((5 : Int), (7 : Int))
      (List.replicate 40 ((0 : Int), (0 : Int)))).length ≤ 40 :=
  (trail_capacity [] (List.replicate 40 ((0 : Int), (0 : Int))) (5, 7)
    (by simp)).1

/-- Claim C4: the measurement table is first-write-wins — an existing
angle key is never overwritten, even by a different distance — and a new
entry is created exactly when the key is fresh and `1 < distance < 50`. -/
theorem table_first_write_wins (t : List (Int × Int)) (deg dist k : Int) :
    (storeMeasurement deg dist t).lookup k =
      if k = deg then
        (match t.lookup deg with
          | some v => some v
          | none => if 1 < dist ∧ dist < 50 then some dist else none)
      else t.lookup k := by
  by_cases hk : k = deg
  · subst hk
    simp only [if_pos rfl]
    cases hl : t.lookup k with
    | some v =>
      have hcond : ¬(dist < 50 ∧ dist > 1 ∧ t.lookup k = none) := by
        rintro ⟨-, -, hnone⟩
        rw [hl] at hnone
        exact Option.noConfusion hnone
      simp [storeMeasurement, hcond, hl]
    | none =>
      by_cases hb : 1 < dist ∧ dist < 50
      · have hcond : dist < 50 ∧ dist > 1 ∧ t.lookup k = none := ⟨hb.2, hb.1, hl⟩
        unfold storeMeasurement
        rw [if_pos hcond]
        simp [List.lookup, hl, hb]
      · have hcond : ¬(dist < 50 ∧ dist > 1 ∧ t.lookup k = none) := by
          rintro ⟨h1, h2, -⟩
          exact hb ⟨h2, h1⟩
        unfold storeMeasurement
        rw [if_neg hcond, hl]
        simp [hb]
  · simp only [if_neg hk]
    by_cases hcond : dist < 50 ∧ dist > 1 ∧ t.lookup deg = none
    · have hbeq : (k == deg) = false := beq_eq_false_iff_ne.mpr hk
      unfold storeMeasurement
      rw [if_pos hcond]
      simp [List.lookup, hbeq]
    · unfold storeMeasurement
      rw [if_neg hcond]

/-- Claim C2 (evaluation at the failing input): on the byte sequence
`"30:20|90:5|200:abc|"` the first two records are processed and retained,
but the third message makes `std::stoi("abc")` throw an uncaught
`std::invalid_argument`, terminating the process — no parse error is
reported for it and the stream does not continue. -/
theorem nonnumeric_field_crashes :
    run ("30:20|90:5|200:abc|".toList) =
      RunOutcome.crashed ⟨[(90, 5), (30, 20)], [(90, 5), (30, 20)], 0⟩ := by
  decide

theorem splitAtColon_eq_none (m : List Char) (h : ':' ∉ m) :
    splitAtColon m = none := by
  induction m with
  | nil => rfl
  | cons c cs ih =>
    simp only [List.mem_cons, not_or] at h
    simp [splitAtColon, Ne.symm h.1, ih h.2]

theorem extractFrames_leading_msg (m rest : List Char) (hm : '|' ∉ m) :
    extractFrames (m ++ '|' :: rest) =
      (m :: (extractFrames rest).1, (extractFrames rest).2) := by
  induction m with
  | nil => simp [extractFrames]
  | cons c cs ih =>
    simp only [List.mem_cons, not_or] at hm
    rw [List.cons_append]
    simp [extractFrames, Ne.symm hm.1, ih hm.2]

/-- Claim C7: a delimiter-bounded message with no `':'` is reported as
malformed (the `stderr` counter advances), contributes no record, leaves
the trail and table untouched, and the framer has already consumed its
frame delimiter, so framing and the stream continue with the following
messages. -/
theorem malformed_message_skipped (m rest : List Char) (ms : List (List Char))
    (st : SysState) (hm : '|' ∉ m) (hc : ':' ∉ m) :
    extractFrames (m ++ '|' :: rest) =
        (m :: (extractFrames rest).1, (extractFrames rest).2) ∧
      parseMessage m = ParseResult.formatError ∧
      parsedRecord m = none ∧
      runMessages st (m :: ms) =
        runMessages { st with errors := st.errors + 1 } ms := by
  have hp : parseMessage m = ParseResult.formatError := by
    simp [parseMessage, splitAtColon_eq_none m hc]
  refine ⟨extractFrames_leading_msg m rest hm, hp, ?_, ?_⟩
  · simp [parsedRecord, hp]
  · simp [runMessages, stepMessage, hp]

/-- Witness for `malformed_message_skipped` on the message `"abc"`
followed by `"90:5|"`. -/
theorem malformed_message_skipped_witness :
    extractFrames ("abc".toList ++ '|' :: "90:5|".toList) =
        ("abc".toList :: (extractFrames "90:5|".toList).1,
          (extractFrames "90:5|".toList).2) ∧
      parseMessage "abc".toList = ParseResult.formatError ∧
      parsedRecord "abc".toList = none ∧
      runMessages initState ("abc".toList :: ["90:5".toList]) =
        runMessages { initState with errors := initState.errors + 1 }
          ["90:5".toList] :=
  malformed_message_skipped "abc".toList "90:5|".toList ["90:5".toList]
    initState (by decide) (by decide)

theorem takeWhile_append_all (p : Char → Bool) (ds junk : List Char)
    (hds : ∀ c ∈ ds, p c = true)
    (hjunk : ∀ c, junk.head? = some c → p c = false) :
    (ds ++ junk).takeWhile p = ds := by
  induction ds with
  | nil =>
    cases junk with
    | nil => rfl
    | cons c cs => simp [List.takeWhile_cons, hjunk c rfl]
  | cons d ds' ih =>
    have hd : p d = true := hds d (List.mem_cons_self d ds')
    have hds' : ∀ c ∈ ds', p c = true := fun c hcm => hds c (List.mem_cons_of_mem d hcm)
    simp [List.takeWhile_cons, hd, ih hds']

theorem isSpaceChar_eq_false_of_digit (c : Char) (h : isDigitChar c = true) :
    isSpaceChar c = false := by
  simp only [isDigitChar, Bool.and_eq_true, decide_eq_true_eq] at h
  simp only [isSpaceChar, Bool.or_eq_false_iff, decide_eq_false_iff_not]
  have h48 : 48 ≤ c.val := h.1
  refine ⟨⟨⟨⟨⟨?_, ?_⟩, ?_⟩, ?_⟩, ?_⟩, ?_⟩ <;>
    (intro he; subst he; revert h48; decide)

theorem stoi_digit_run (ds junk : List Char) (hne : ds ≠ [])
    (hds : ∀ c ∈ ds, isDigitChar c = true)
    (hjunk : ∀ c, junk.head? = some c → isDigitChar c = false) :
    stoi (ds ++ junk) = some (digitsToNat ds : Int) := by
  cases ds with
  | nil => exact absurd rfl hne
  | cons d ds' =>
    have hd : isDigitChar d = true := hds d (List.mem_cons_self d ds')
    have hdm : ¬d = '-' := by
      intro he
      rw [he] at hd
      exact absurd hd (by decide)
    have hdp : ¬d = '+' := by
      intro he
      rw [he] at hd
      exact absurd hd (by decide)
    have hdrop : ((d :: ds') ++ junk).dropWhile isSpaceChar = (d :: ds') ++ junk := by
      rw [List.cons_append]
      exact List.dropWhile_cons_of_neg (by simp [isSpaceChar_eq_false_of_digit d hd])
    have htake : ((d :: ds') ++ junk).takeWhile isDigitChar = d :: ds' :=
      takeWhile_append_all isDigitChar (d :: ds') junk hds hjunk
    unfold stoi
    rw [hdrop, List.cons_append]
    simp only [if_neg hdm, if_neg hdp, stoiDigits]
    rw [← List.cons_append, htake]
    simp

theorem splitAtColon_append (a b : List Char) (ha : ':' ∉ a) :
    splitAtColon (a ++ ':' :: b) = some (a, b) := by
  induction a with
  | nil => simp [splitAtColon]
  | cons c cs ih =>
    simp only [List.mem_cons, not_or] at ha
    rw [List.cons_append]
    simp [splitAtColon, Ne.symm ha.1, ih ha.2]

/-- Claim C9: a well-delimited message whose distance field is a decimal
digit run followed by trailing non-numeric characters is accepted — the
field's integer prefix is the emitted value and no error (and no crash)
occurs, because `std::stoi` stops at the first non-digit. -/
theorem integer_prefix_accepted (a ds junk : List Char) (deg : Int)
    (ha : ':' ∉ a) (hdeg : stoi a = some deg) (hne : ds ≠ [])
    (hds : ∀ c ∈ ds, isDigitChar c = true)
    (hjunk : ∀ c, junk.head? = some c → isDigitChar c = false) :
    parseMessage (a ++ ':' :: (ds ++ junk)) =
      ParseResult.ok deg (digitsToNat ds : Int) := by
  unfold parseMessage
  rw [splitAtColon_append a (ds ++ junk) ha]
  simp [hdeg, stoi_digit_run ds junk hne hds hjunk]

/-- Witness for `integer_prefix_accepted`: the message `"200:20abc"`
parses to the record `(200, 20)` with no error. -/
theorem integer_prefix_accepted_witness :
    parseMessage ("200".toList ++ ':' :: ("20".toList ++ "abc".toList)) =
      ParseResult.ok 200 (digitsToNat "20".toList : Int) :=
  integer_prefix_accepted "200".toList "20".toList "abc".toList 200
    (by decide) (by decide) (by decide) (by decide) (by decide)

theorem fadeCmds_mem_get (trail : List (Int × Int)) (cc : ℚ) (i : ℕ)
    (a d : Int) (g r : ℚ) (h : trail.get? i = some (a, d))
    (hg : g = 200 - (cc + 5 * ((i : ℚ) + 1)))
    (hr : r = 255 - (cc + 5 * ((i : ℚ) + 1)) * (14 / 10)) :
    DrawCmd.line a 100 g ∈ fadeCmds cc trail ∧
      (d < 50 ∧ d > 2 → DrawCmd.blip a (d * 2) r ∈ fadeCmds cc trail) := by
  induction trail generalizing cc i with
  | nil => simp [List.get?] at h
  | cons hd tl ih =>
    obtain ⟨a0, d0⟩ := hd
    cases i with
    | zero =>
      rw [List.get?_cons_zero] at h
      injection h with h'
      injection h' with h1 h2
      subst h1
      subst h2
      constructor
      · have hg' : g = 200 - (cc + 5) := by rw [hg]; push_cast; ring
        rw [hg']
        simp [fadeCmds, entryCmds]
      · intro hband
        have hr' : r = 255 - (cc + 5) * (14 / 10) := by rw [hr]; push_cast; ring
        rw [hr']
        simp [fadeCmds, entryCmds, hband.1, hband.2]
    | succ n =>
      rw [List.get?_cons_succ] at h
      have hg' : g = 200 - ((cc + 5) + 5 * ((n : ℚ) + 1)) := by
        rw [hg]; push_cast; ring
      have hr' : r = 255 - ((cc + 5) + 5 * ((n : ℚ) + 1)) * (14 / 10) := by
        rw [hr]; push_cast; ring
      have hrec := ih (cc + 5) n h hg' hr'
      simp only [fadeCmds]
      exact ⟨List.mem_append_right _ hrec.1,
        fun hb => List.mem_append_right _ (hrec.2 hb)⟩

/-- Claim C5: the trail entry at fade index `i` (0 = newest) is drawn as a
radial line with green intensity `195 - 5·i` (an affine fade of slope -5
from the base intensity) and, when its distance is in the blip-valid band,
a filled circle whose fading channel is `248 - 7·i` (slope `-5·1.4`); the
arithmetic is unclamped, so the channel value is negative for `i ≥ 36`. -/
theorem trail_fade_formula (trail : List (Int × Int)) (i : ℕ) (a d : Int)
    (h : trail.get? i = some (a, d)) :
    DrawCmd.line a 100 (195 - 5 * (i : ℚ)) ∈ updateRadarCmds trail ∧
      (d < 50 ∧ d > 2 →
        DrawCmd.blip a (d * 2) (248 - 7 * (i : ℚ)) ∈ updateRadarCmds trail) ∧
      (36 ≤ i → 248 - 7 * (i : ℚ) < 0) := by
  have key := fadeCmds_mem_get trail 0 i a d (195 - 5 * (i : ℚ))
    (248 - 7 * (i : ℚ)) h (by ring) (by ring)
  refine ⟨key.1, key.2, ?_⟩
  intro hi
  have hi' : (36 : ℚ) ≤ (i : ℚ) := by exact_mod_cast hi
  linarith

/-- Witness for `trail_fade_formula` at fade index 1 of a two-entry
trail. -/
theorem trail_fade_formula_witness :
    DrawCmd.line 90 100 (195 - 5 * ((1 : ℕ) : ℚ)) ∈
        updateRadarCmds [(30, 20), (90, 5)] ∧
      ((5 : Int) < 50 ∧ (5 : Int) > 2 →
        DrawCmd.blip 90 (5 * 2) (248 - 7 * ((1 : ℕ) : ℚ)) ∈
          updateRadarCmds [(30, 20), (90, 5)]) ∧
      (36 ≤ 1 → 248 - 7 * ((1 : ℕ) : ℚ) < 0) :=
  trail_fade_formula [(30, 20), (90, 5)] 1 90 5 (by decide)

/-- Claim C6: a trail entry's draw commands contain a blip exactly when
the distance lies strictly between 2 and 50 (so d = 1, 2, 50 produce no
blip), and any blip's radial length argument is twice the distance (d = 49
gives scaled length 98). -/
theorem blip_band (cc : ℚ) (a d : Int) :
    ((∃ L r, DrawCmd.blip a L r ∈ entryCmds cc a d) ↔ 2 < d ∧ d < 50) ∧
      (∀ L r, DrawCmd.blip a L r ∈ entryCmds cc a d → L = 2 * d) := by
  constructor
  · constructor
    · rintro ⟨L, r, hm⟩
      simp only [entryCmds, List.mem_cons] at hm
      rcases hm with he | hm
      · exact absurd he (by simp)
      · by_cases hband : d < 50 ∧ d > 2
        · exact ⟨hband.2, hband.1⟩
        · rw [if_neg hband] at hm
          simp at hm
    · rintro ⟨h2, h50⟩
      refine ⟨d * 2, 255 - cc * (14 / 10), ?_⟩
      simp [entryCmds, h50, h2]
  · intro L r hm
    simp only [entryCmds, List.mem_cons] at hm
    rcases hm with he | hm
    · exact absurd he (by simp)
    · by_cases hband : d < 50 ∧ d > 2
      · rw [if_pos hband] at hm
        simp only [List.mem_singleton, DrawCmd.blip.injEq] at hm
        rw [hm.2.1]
        ring
      · rw [if_neg hband] at hm
        simp at hm

/-- Claim C8: the polar-to-cartesian transform shared by line drawing and
blip placement returns origin + (L, 0) at angle 0 and origin + (0, -L) at
angle 90 — the vertical screen axis is inverted by subtracting the sine
term. -/
theorem pointAtAngle_axes (sx sy L : Int) :
    lineEndpoint sx sy 0 L = ((sx : ℝ) + (L : ℝ), (sy : ℝ)) ∧
      lineEndpoint sx sy 90 L = ((sx : ℝ), (sy : ℝ) - (L : ℝ)) := by
  constructor
  · simp [lineEndpoint]
  · have h90 : (90 : ℝ) * (Real.pi / 180) = Real.pi / 2 := by ring
    simp [lineEndpoint, h90]

/-- Claim C10: every successfully parsed record is pushed to the front of
the trail unconditionally and rendered by exactly the same fade/blip rule
as any other entry; nothing on this path validates the angle or distance
range. -/
theorem no_range_validation (st : SysState) (m : List Char) (deg dist : Int)
    (h : parseMessage m = ParseResult.ok deg dist) :
    stepMessage st m = RunOutcome.ok (processRecord st deg dist) ∧
      ∃ rest, (processRecord st deg dist).trail = (deg, dist) :: rest ∧
        updateRadarCmds (processRecord st deg dist).trail =
          entryCmds 5 deg dist ++ fadeCmds 5 rest := by
  have hcons : ∃ rest, lineDequePush (deg, dist) st.trail = (deg, dist) :: rest := by
    unfold lineDequePush
    split
    · rename_i hgt
      cases htr : st.trail with
      | nil =>
        rw [htr] at hgt
        simp at hgt
      | cons b bs => exact ⟨(b :: bs).dropLast, rfl⟩
    · exact ⟨st.trail, rfl⟩
  obtain ⟨rest, hrest⟩ := hcons
  refine ⟨by simp [stepMessage, h], rest, ?_, ?_⟩
  · simp [processRecord, hrest]
  · simp only [processRecord]
    rw [hrest]
    simp only [updateRadarCmds, fadeCmds]
    norm_num

/-- Witness for `no_range_validation`: the message `"200:-5"` — angle 200
outside [0, 180], negative distance — is pushed and rendered like any
other record. -/
theorem no_range_validation_witness :
    stepMessage initState "200:-5".toList =
        RunOutcome.ok (processRecord initState 200 (-5)) ∧
      ∃ rest, (processRecord initState 200 (-5)).trail = (200, -5) :: rest ∧
        updateRadarCmds (processRecord initState 200 (-5)).trail =
          entryCmds 5 200 (-5) ++ fadeCmds 5 rest :=
  no_range_validation initState "200:-5".toList 200 (-5) (by decide)

end Radar
